import Mathlib

/-!
Verification of the typed-scad solid-modeling geometry kernel.

The Rust source is shallowly embedded: `f64` values (noisy_float `N64`) are
modelled as real numbers, so floating-point rounding is not modelled, but the
library's explicit 1e-10 tolerance logic is carried over exactly.  Functions
that can panic in Rust are Option-valued here (`none` = panic).
-/

noncomputable section

open scoped Classical

namespace TypedScad

/-- FLOAT_POINT_ALLOWABLE_ERROR (math/rough_fp.rs line 3). -/
def eps : ℝ := 1e-10

/-- rough_partial_eq (math/rough_fp.rs lines 5-7):
`s > o - ε && s < o + ε`. -/
def roughEq (s o : ℝ) : Prop := s > o - eps ∧ s < o + eps

/-- rough_partial_cmp returns Less (math/rough_fp.rs lines 9-18), i.e.
`s < o + ε` and not `s > o - ε`; on reals this is `s ≤ o - ε`.  This is the
meaning of `<` on Size and Angle. -/
def roughLt (s o : ℝ) : Prop := s ≤ o - eps

/-- rough_partial_cmp returns Greater, i.e. not `s < o + ε` but `s > o - ε`;
on reals this is `o + ε ≤ s`.  This is the meaning of `>` on Size and Angle. -/
def roughGt (s o : ℝ) : Prop := o + eps ≤ s

/-- PartialEq for Size (geometry/size.rs lines 129-135): tolerant equality of
the wrapped millimeter values. -/
def sizeEq (a b : ℝ) : Prop := roughEq a b

/-- PartialEq for Angle (geometry/angle.rs lines 204-210): tolerant equality
of the wrapped radian values. -/
def angleEq (a b : ℝ) : Prop := roughEq a b

theorem eps_pos : 0 < eps := by norm_num [eps]

theorem roughEq_iff_abs (s o : ℝ) : roughEq s o ↔ |s - o| < eps := by
  rw [roughEq, abs_sub_lt_iff]
  constructor
  · rintro ⟨h1, h2⟩
    exact ⟨by linarith, by linarith⟩
  · rintro ⟨h1, h2⟩
    exact ⟨by linarith, by linarith⟩

/-- C1: tolerant equality on `Size` and `Angle` is equivalence of wrapped
values to within the fixed tolerance `ε = 1e-10`: `a == b` iff `|a - b| < ε`;
`a + ε/2` compares equal to `a`, and `a + 2ε` compares unequal to `a`. -/
theorem C1_size_angle_tolerant_eq :
    ∀ a b : ℝ,
      (sizeEq a b ↔ |a - b| < eps) ∧ (angleEq a b ↔ |a - b| < eps) ∧
      sizeEq (a + eps / 2) a ∧ ¬ sizeEq (a + 2 * eps) a ∧
      angleEq (a + eps / 2) a ∧ ¬ angleEq (a + 2 * eps) a := by
  intro a b
  have he := eps_pos
  have h2 : ¬ roughEq (a + 2 * eps) a := by
    rw [roughEq_iff_abs]
    have habs : |a + 2 * eps - a| = 2 * eps := by
      rw [show a + 2 * eps - a = 2 * eps by ring]
      exact abs_of_pos (by linarith)
    rw [habs]
    linarith
  have h1 : roughEq (a + eps / 2) a := by
    rw [roughEq_iff_abs]
    have habs : |a + eps / 2 - a| = eps / 2 := by
      rw [show a + eps / 2 - a = eps / 2 by ring]
      exact abs_of_pos (by linarith)
    rw [habs]
    linarith
  exact ⟨roughEq_iff_abs a b, roughEq_iff_abs a b, h1, h2, h1, h2⟩

/-- C9: the tolerant equality exposed as Eq on Size and Angle is not
transitive (hence not an equivalence relation): with a = 0 mm,
b = 0.6e-10 mm and c = 1.2e-10 mm we get a == b and b == c but a != c,
and likewise for angles in radians. -/
theorem C9_eq_not_transitive :
    sizeEq 0 (6e-11) ∧ sizeEq (6e-11) (1.2e-10) ∧ ¬ sizeEq 0 (1.2e-10) ∧
    angleEq 0 (6e-11) ∧ angleEq (6e-11) (1.2e-10) ∧ ¬ angleEq 0 (1.2e-10) ∧
    ¬ (∀ a b c : ℝ, sizeEq a b → sizeEq b c → sizeEq a c) := by
  have hab : roughEq 0 (6e-11) := by constructor <;> norm_num [eps]
  have hbc : roughEq (6e-11) (1.2e-10) := by constructor <;> norm_num [eps]
  have hac : ¬ roughEq 0 (1.2e-10) := by
    rintro ⟨h1, h2⟩
    rw [eps] at h1
    norm_num at h1
  refine ⟨hab, hbc, hac, hab, hbc, hac, ?_⟩
  intro h
  exact hac (h 0 (6e-11) (1.2e-10) hab hbc)

/-- Vector in 3D (geometry/vector.rs): a column matrix of three Size
(millimeter) components. -/
structure Vector where
  x : ℝ
  y : ℝ
  z : ℝ

/-- Point in 3D (geometry/point.rs): same representation as Vector,
distinct type. -/
structure Point where
  x : ℝ
  y : ℝ
  z : ℝ

/-- Vector::ZERO. -/
def Vector.zero : Vector := ⟨0, 0, 0⟩

/-- Vector::X_UNIT_VECTOR. -/
def Vector.xUnit : Vector := ⟨1, 0, 0⟩

/-- Vector::Y_UNIT_VECTOR. -/
def Vector.yUnit : Vector := ⟨0, 1, 0⟩

/-- Vector::Z_UNIT_VECTOR. -/
def Vector.zUnit : Vector := ⟨0, 0, 1⟩

/-- Point::ORIGIN. -/
def Point.origin : Point := ⟨0, 0, 0⟩

/-- Componentwise addition (impl Add for Vector, via matrix addition). -/
def Vector.add (a b : Vector) : Vector := ⟨a.x + b.x, a.y + b.y, a.z + b.z⟩

/-- Unary negation (impl Neg for Vector: matrix * -1). -/
def Vector.neg (a : Vector) : Vector := ⟨-a.x, -a.y, -a.z⟩

/-- Scalar multiple (matrix * scalar). -/
def Vector.smul (c : ℝ) (a : Vector) : Vector := ⟨c * a.x, c * a.y, c * a.z⟩

/-- Vector::inner_product: the dot product (dimension Exp<Size,2>, modelled
as a real). -/
def Vector.dot (a b : Vector) : ℝ := a.x * b.x + a.y * b.y + a.z * b.z

/-- Vector::vector_product: the cross product. -/
def Vector.cross (a b : Vector) : Vector :=
  ⟨a.y * b.z - a.z * b.y, a.z * b.x - a.x * b.z, a.x * b.y - a.y * b.x⟩

/-- Vector::norm: `(x*x + y*y + z*z).sqrt()`. -/
def Vector.norm (v : Vector) : ℝ := Real.sqrt (v.x * v.x + v.y * v.y + v.z * v.z)

/-- Vector::between(a, b): the vector from point a to point b, `b - a`. -/
def Vector.between (a b : Point) : Vector := ⟨b.x - a.x, b.y - a.y, b.z - a.z⟩

/-- Division of a vector by its norm (the matrix division in
Vector::to_unit_vector). -/
def Vector.unitOf (v : Vector) : Vector := ⟨v.x / v.norm, v.y / v.norm, v.z / v.norm⟩

/-- Vector::to_unit_vector (geometry/vector.rs lines 67-77): panics (`none`)
when `norm == 0.mm()` under the tolerant Size equality, otherwise divides the
vector by its norm. -/
def Vector.toUnitVector (v : Vector) : Option Vector :=
  if roughEq v.norm 0 then none else some v.unitOf

/-- Derived PartialEq on Vector: componentwise tolerant Size equality. -/
def vecEq (a b : Vector) : Prop := sizeEq a.x b.x ∧ sizeEq a.y b.y ∧ sizeEq a.z b.z

/-- Derived PartialEq on Point: componentwise tolerant Size equality. -/
def pointEq (a b : Point) : Prop := sizeEq a.x b.x ∧ sizeEq a.y b.y ∧ sizeEq a.z b.z

/-- Point translated by an offset vector (impl Transform for Point). -/
def Point.translated (p : Point) (off : Vector) : Point :=
  ⟨p.x + off.x, p.y + off.y, p.z + off.z⟩

/-- Transform::translated_toward: translate by `direction * (distance /
direction.norm())`. -/
def Point.translatedToward (p : Point) (dir : Vector) (dist : ℝ) : Point :=
  p.translated (Vector.smul (dist / dir.norm) dir)

/-- Point::distance: the norm of the vector between the points. -/
def Point.distance (a b : Point) : ℝ := (Vector.between a b).norm

theorem Vector.dot_self_nonneg (v : Vector) : 0 ≤ v.dot v := by
  rw [Vector.dot]
  nlinarith [sq_nonneg v.x, sq_nonneg v.y, sq_nonneg v.z]

theorem Vector.norm_nonneg (v : Vector) : 0 ≤ v.norm := Real.sqrt_nonneg _

theorem Vector.norm_mul_self (v : Vector) : v.norm * v.norm = v.dot v := by
  rw [Vector.norm, Vector.dot]
  exact Real.mul_self_sqrt (v.dot_self_nonneg)

theorem roughEq_self_zero : roughEq 0 0 := by
  constructor <;> norm_num [eps]

theorem Vector.norm_ne_zero_of_not_roughEq {v : Vector}
    (h : ¬ roughEq v.norm 0) : v.norm ≠ 0 := by
  intro h0
  rw [h0] at h
  exact h roughEq_self_zero

theorem Vector.dot_self_ne_zero_of_norm_ne_zero {v : Vector}
    (h : v.norm ≠ 0) : v.dot v ≠ 0 := by
  intro h0
  apply h
  rw [Vector.norm]
  rw [Vector.dot] at h0
  rw [h0]
  exact Real.sqrt_zero

theorem Vector.dot_unitOf_self {v : Vector} (h : v.norm ≠ 0) :
    v.unitOf.dot v.unitOf = 1 := by
  have hs := v.norm_mul_self
  have hd := Vector.dot_self_ne_zero_of_norm_ne_zero h
  rw [Vector.unitOf, Vector.dot]
  rw [Vector.dot] at hs hd
  field_simp
  linarith [hs]

theorem Vector.norm_eq_one_of_dot_self_eq_one {v : Vector}
    (h : v.dot v = 1) : v.norm = 1 := by
  rw [Vector.norm]
  rw [Vector.dot] at h
  rw [h]
  exact Real.sqrt_one

theorem Vector.norm_unitOf {v : Vector} (h : v.norm ≠ 0) : v.unitOf.norm = 1 :=
  Vector.norm_eq_one_of_dot_self_eq_one (Vector.dot_unitOf_self h)

/-- C7 counterexample: the vector (5e-11 mm, 0, 0) has nonzero norm, yet
`to_unit_vector` panics on it, refuting "fails if and only if the norm is
zero". -/
theorem C7_counterexample :
    Vector.toUnitVector ⟨5e-11, 0, 0⟩ = none ∧
    Vector.norm ⟨5e-11, 0, 0⟩ ≠ 0 := by
  have hn : Vector.norm ⟨5e-11, 0, 0⟩ = 5e-11 := by
    rw [Vector.norm]
    rw [show ((5e-11 : ℝ) * 5e-11 + 0 * 0 + 0 * 0) = (5e-11 : ℝ) ^ 2 by norm_num]
    exact Real.sqrt_sq (by norm_num)
  constructor
  · rw [Vector.toUnitVector, if_pos]
    rw [hn]
    constructor <;> norm_num [eps]
  · rw [hn]
    norm_num

/-- C7 amended: `to_unit_vector` panics if and only if the norm of the
vector equals zero under the library's tolerant Size equality (that is, the
norm is below ε); otherwise the returned vector's norm is exactly 1 mm, in
particular equal to 1 mm within the ε tolerance. -/
theorem C7_to_unit_vector_amended :
    ∀ v : Vector,
      (v.toUnitVector = none ↔ roughEq v.norm 0) ∧
      ∀ u, v.toUnitVector = some u → u.norm = 1 ∧ sizeEq u.norm 1 := by
  intro v
  constructor
  · rw [Vector.toUnitVector]
    by_cases h : roughEq v.norm 0
    · simp [h]
    · simp [h]
  · intro u hu
    rw [Vector.toUnitVector] at hu
    by_cases h : roughEq v.norm 0
    · rw [if_pos h] at hu
      exact absurd hu (by simp)
    · rw [if_neg h] at hu
      have hne := Vector.norm_ne_zero_of_not_roughEq h
      have h1 : u.norm = 1 := by
        have hun := Vector.norm_unitOf hne
        rw [← Option.some_inj.mp hu]
        exact hun
      refine ⟨h1, ?_⟩
      rw [sizeEq, h1]
      constructor <;> [linarith [eps_pos]; linarith [eps_pos]]

/-- Rodrigues combination that Vector::rotated builds once the unit axis is
in hand: `v·c + ((1-c)·(v·a))·a + s·(a × v)` with `c = cos θ`, `s = sin θ`
(proof helper). -/
def rod (a : Vector) (c s : ℝ) (v : Vector) : Vector :=
  ((Vector.smul c v).add (Vector.smul ((1 - c) * v.dot a) a)).add
    (Vector.smul s (a.cross v))

/-- Vector::rotated (geometry/vector.rs lines 103-119): normalizes the axis
(panicking on a tolerantly-zero norm), recovers the component of the vector
along the axis as `axis · (⟨v,â⟩ / |axis|)`, and combines
`v·cosθ + (1−cosθ)·axis_vector + (â × v)·sinθ`. -/
def Vector.rotated (v axis : Vector) (θ : ℝ) : Option Vector :=
  match axis.toUnitVector with
  | none => none
  | some au =>
    let axisVec := Vector.smul (v.dot au / axis.norm) axis
    some (((Vector.smul (Real.cos θ) v).add
      (Vector.smul (1 - Real.cos θ) axisVec)).add
      (Vector.smul (Real.sin θ) (au.cross v)))

theorem Vector.rotated_eq_rod {axis : Vector} (h : ¬ roughEq axis.norm 0)
    (v : Vector) (θ : ℝ) :
    v.rotated axis θ =
      some (rod axis.unitOf (Real.cos θ) (Real.sin θ) v) := by
  rw [Vector.rotated, Vector.toUnitVector, if_neg h]
  simp only [rod, Vector.add, Vector.smul, Vector.cross, Vector.dot,
    Vector.unitOf, Option.some_inj, Vector.mk.injEq]
  refine ⟨by ring, by ring, by ring⟩

/-- Rotation about a unit axis preserves the dot product: the core exactness
fact behind norm- and angle-preservation of Vector::rotated. -/
theorem rod_dot (a u v : Vector) (c s : ℝ) (ha : a.dot a = 1)
    (hcs : c ^ 2 + s ^ 2 = 1) :
    (rod a c s u).dot (rod a c s v) = u.dot v := by
  simp only [rod, Vector.add, Vector.smul, Vector.cross, Vector.dot] at *
  linear_combination
    ((1 - c) ^ 2 * ((a.x * u.x + a.y * u.y + a.z * u.z) *
        (a.x * v.x + a.y * v.y + a.z * v.z)) +
      s ^ 2 * (u.x * v.x + u.y * v.y + u.z * v.z)) * ha +
    ((u.x * v.x + u.y * v.y + u.z * v.z) -
      (a.x * u.x + a.y * u.y + a.z * u.z) *
        (a.x * v.x + a.y * v.y + a.z * v.z)) * hcs

theorem Vector.rotated_dot {axis : Vector} (h : ¬ roughEq axis.norm 0)
    {u v u' v' : Vector} {θ : ℝ}
    (hu : u.rotated axis θ = some u') (hv : v.rotated axis θ = some v') :
    u'.dot v' = u.dot v := by
  rw [Vector.rotated_eq_rod h u θ, Option.some_inj] at hu
  rw [Vector.rotated_eq_rod h v θ, Option.some_inj] at hv
  subst hu
  subst hv
  exact rod_dot _ u v _ _
    (Vector.dot_unitOf_self (Vector.norm_ne_zero_of_not_roughEq h))
    (Real.cos_sq_add_sin_sq θ)

theorem Vector.rotated_isSome {axis : Vector} (h : ¬ roughEq axis.norm 0)
    (v : Vector) (θ : ℝ) :
    ∃ w, v.rotated axis θ = some w ∧ w.dot w = v.dot v := by
  refine ⟨rod axis.unitOf (Real.cos θ) (Real.sin θ) v,
    Vector.rotated_eq_rod h v θ, ?_⟩
  exact Vector.rotated_dot h (Vector.rotated_eq_rod h v θ)
    (Vector.rotated_eq_rod h v θ)

theorem Vector.norm_eq_of_dot_eq {u v : Vector} (h : u.dot u = v.dot v) :
    u.norm = v.norm := by
  rw [Vector.norm, Vector.norm]
  rw [Vector.dot, Vector.dot] at h
  rw [h]

/-- Line in 3D (geometry/line.rs): a point and a direction vector. -/
structure Line where
  point : Point
  vector : Vector

/-- Plane in 3D (geometry/plane.rs): a point and a normal vector. -/
structure Plane where
  point : Point
  normalVector : Vector

/-- Membership of a point in a plane, in exact arithmetic: the vector from
the plane's reference point is orthogonal to the normal. -/
def Plane.carries (pl : Plane) (q : Point) : Prop :=
  (Vector.between pl.point q).dot pl.normalVector = 0

/-- Membership of a point in a line, in exact arithmetic. -/
def Line.carries (l : Line) (q : Point) : Prop :=
  ∃ t : ℝ, q = l.point.translated (Vector.smul t l.vector)

/-- Plane-line intersection (geometry/plane.rs lines 164-205): panics when
the dot product of the plane normal and the line direction is tolerantly
zero, otherwise walks `t = ⟨plane.point − line.point, normal⟩ / d` along the
line. -/
def Plane.intersectionLine (pl : Plane) (l : Line) : Option Point :=
  if roughEq (pl.normalVector.dot l.vector) 0 then none
  else
    let t := ((pl.point.x - l.point.x) * pl.normalVector.x +
        (pl.point.y - l.point.y) * pl.normalVector.y +
        (pl.point.z - l.point.z) * pl.normalVector.z) /
      (pl.normalVector.dot l.vector)
    some ⟨l.point.x + t * l.vector.x, l.point.y + t * l.vector.y,
      l.point.z + t * l.vector.z⟩

/-- Plane-plane intersection (geometry/plane.rs lines 85-141): the result
direction is the cross product of the normals; the reference point is found
by zeroing the coordinate of the first tolerantly-nonzero cross component
(x, then y, then z) and applying Cramer's rule to the two plane equations;
all three components tolerantly zero is a panic. -/
def Plane.intersectionPlane (s r : Plane) : Option Line :=
  let p1 := s.point
  let v1 := s.normalVector
  let p2 := r.point
  let v2 := r.normalVector
  let vec := v1.cross v2
  if ¬ sizeEq vec.x 0 then
    some ⟨⟨0,
      (v1.x * v2.z * p1.x - v1.z * v2.x * p2.x + v1.y * v2.z * p1.y -
          v1.z * v2.y * p2.y + v1.z * v2.z * p1.z - v1.z * v2.z * p2.z) /
        (v1.y * v2.z - v1.z * v2.y),
      (v1.z * v2.y * p1.z - v1.y * v2.z * p2.z + v1.x * v2.y * p1.x -
          v1.y * v2.x * p2.x + v1.y * v2.y * p1.y - v1.y * v2.y * p2.y) /
        -(v1.y * v2.z - v1.z * v2.y)⟩, vec⟩
  else if ¬ sizeEq vec.y 0 then
    some ⟨⟨(v1.x * v2.z * p1.x - v1.z * v2.x * p2.x + v1.y * v2.z * p1.y -
          v1.z * v2.y * p2.y + v1.z * v2.z * p1.z - v1.z * v2.z * p2.z) /
        -(v1.z * v2.x - v1.x * v2.z),
      0,
      (v1.y * v2.x * p1.y - v1.x * v2.y * p2.y + v1.z * v2.x * p1.z -
          v1.x * v2.z * p2.z + v1.x * v2.x * p1.x - v1.x * v2.x * p2.x) /
        (v1.z * v2.x - v1.x * v2.z)⟩, vec⟩
  else if ¬ sizeEq vec.z 0 then
    some ⟨⟨(v1.z * v2.y * p1.z - v1.y * v2.z * p2.z + v1.x * v2.y * p1.x -
          v1.y * v2.x * p2.x + v1.y * v2.y * p1.y - v1.y * v2.y * p2.y) /
        (v1.x * v2.y - v1.y * v2.x),
      (v1.y * v2.x * p1.y - v1.x * v2.y * p2.y + v1.z * v2.x * p1.z -
          v2.z * v1.x * p2.z + v1.x * v2.x * p1.x - v1.x * v2.x * p2.x) /
        -(v1.x * v2.y - v1.y * v2.x),
      0⟩, vec⟩
  else none

theorem roughEq_refl (a : ℝ) : roughEq a a := by
  constructor <;> [linarith [eps_pos]; linarith [eps_pos]]

theorem ne_of_not_roughEq {a b : ℝ} (h : ¬ roughEq a b) : a ≠ b := by
  intro he
  subst he
  exact h (roughEq_refl a)

/-- C5: plane-line intersection panics iff the normal-direction dot product
is within ε of 0; otherwise it returns `line.point + t · line.direction`
with `t = ⟨plane.point − line.point, normal⟩ / d`, a point lying on both the
plane and the line (exactly, in real arithmetic). -/
theorem C5_plane_line_intersection :
    ∀ (pl : Plane) (l : Line),
      (Plane.intersectionLine pl l = none ↔
        roughEq (pl.normalVector.dot l.vector) 0) ∧
      ∀ q, Plane.intersectionLine pl l = some q →
        q = l.point.translated (Vector.smul
          (((Vector.between l.point pl.point).dot pl.normalVector) /
            (pl.normalVector.dot l.vector)) l.vector) ∧
        Plane.carries pl q ∧ Line.carries l q := by
  intro pl l
  by_cases hip : roughEq (pl.normalVector.dot l.vector) 0
  · refine ⟨?_, ?_⟩
    · rw [Plane.intersectionLine, if_pos hip]
      simp [hip]
    · intro q hq
      rw [Plane.intersectionLine, if_pos hip] at hq
      cases hq
  · have hne : pl.normalVector.dot l.vector ≠ 0 := ne_of_not_roughEq hip
    refine ⟨?_, ?_⟩
    · rw [Plane.intersectionLine, if_neg hip]
      simp [hip]
    · intro q hq
      rw [Plane.intersectionLine, Option.ite_none_left_eq_some,
        Option.some_inj] at hq
      obtain ⟨-, hq⟩ := hq
      subst hq
      refine ⟨?_, ?_, ?_⟩
      · obtain ⟨⟨ppx, ppy, ppz⟩, ⟨nx, ny, nz⟩⟩ := pl
        obtain ⟨⟨lpx, lpy, lpz⟩, ⟨lvx, lvy, lvz⟩⟩ := l
        simp only [Point.translated, Vector.smul, Vector.between, Vector.dot,
          Point.mk.injEq]
      · obtain ⟨⟨ppx, ppy, ppz⟩, ⟨nx, ny, nz⟩⟩ := pl
        obtain ⟨⟨lpx, lpy, lpz⟩, ⟨lvx, lvy, lvz⟩⟩ := l
        rw [Plane.carries]
        simp only [Vector.between, Vector.dot, Point.translated,
          Vector.smul] at hne ⊢
        field_simp
        ring
      · exact ⟨_, rfl⟩

/-- C4: plane-plane intersection panics iff the cross product of the two
normals is the zero vector under the tolerant componentwise equality;
otherwise the returned line's direction is that cross product, its reference
point lies exactly on both planes, and the coordinate matching the first
tolerantly-nonzero cross component (x, then y, then z) is 0. -/
theorem C4_plane_plane_intersection :
    ∀ s r : Plane,
      (Plane.intersectionPlane s r = none ↔
        vecEq (s.normalVector.cross r.normalVector) Vector.zero) ∧
      ∀ L, Plane.intersectionPlane s r = some L →
        L.vector = s.normalVector.cross r.normalVector ∧
        Plane.carries s L.point ∧ Plane.carries r L.point ∧
        (¬ sizeEq (s.normalVector.cross r.normalVector).x 0 →
          L.point.x = 0) ∧
        (sizeEq (s.normalVector.cross r.normalVector).x 0 →
          ¬ sizeEq (s.normalVector.cross r.normalVector).y 0 →
          L.point.y = 0) ∧
        (sizeEq (s.normalVector.cross r.normalVector).x 0 →
          sizeEq (s.normalVector.cross r.normalVector).y 0 →
          L.point.z = 0) := by
  intro s r
  obtain ⟨⟨p1x, p1y, p1z⟩, ⟨v1x, v1y, v1z⟩⟩ := s
  obtain ⟨⟨p2x, p2y, p2z⟩, ⟨v2x, v2y, v2z⟩⟩ := r
  simp only [Plane.intersectionPlane, Vector.cross, Vector.zero, vecEq]
  by_cases hx : sizeEq (v1y * v2z - v1z * v2y) 0
  · by_cases hy : sizeEq (v1z * v2x - v1x * v2z) 0
    · by_cases hz : sizeEq (v1x * v2y - v1y * v2x) 0
      · rw [if_neg (not_not_intro hx), if_neg (not_not_intro hy),
          if_neg (not_not_intro hz)]
        refine ⟨?_, ?_⟩
        · simp [hx, hy, hz]
        · intro L hL
          cases hL
      · rw [if_neg (not_not_intro hx), if_neg (not_not_intro hy),
          if_pos hz]
        have hzne : v1x * v2y - v1y * v2x ≠ 0 := ne_of_not_roughEq hz
        refine ⟨?_, ?_⟩
        · simp [hz]
        · intro L hL
          rw [Option.some_inj] at hL
          subst hL
          refine ⟨rfl, ?_, ?_, ?_, ?_, ?_⟩
          · rw [Plane.carries]
            simp only [Vector.between, Vector.dot, div_neg]
            field_simp
            ring
          · rw [Plane.carries]
            simp only [Vector.between, Vector.dot, div_neg]
            field_simp
            ring
          · intro h
            exact absurd hx h
          · intro _ h
            exact absurd hy h
          · intro _ _
            rfl
    · rw [if_neg (not_not_intro hx), if_pos hy]
      have hyne : v1z * v2x - v1x * v2z ≠ 0 := ne_of_not_roughEq hy
      refine ⟨?_, ?_⟩
      · simp [hy]
      · intro L hL
        rw [Option.some_inj] at hL
        subst hL
        refine ⟨rfl, ?_, ?_, ?_, ?_, ?_⟩
        · rw [Plane.carries]
          simp only [Vector.between, Vector.dot, div_neg]
          field_simp
          ring
        · rw [Plane.carries]
          simp only [Vector.between, Vector.dot, div_neg]
          field_simp
          ring
        · intro h
          exact absurd hx h
        · intro _ _
          rfl
        · intro _ h
          exact absurd h hy
  · rw [if_pos hx]
    have hxne : v1y * v2z - v1z * v2y ≠ 0 := ne_of_not_roughEq hx
    refine ⟨?_, ?_⟩
    · simp [hx]
    · intro L hL
      rw [Option.some_inj] at hL
      subst hL
      refine ⟨rfl, ?_, ?_, ?_, ?_, ?_⟩
      · rw [Plane.carries]
        simp only [Vector.between, Vector.dot, div_neg]
        field_simp
        ring
      · rw [Plane.carries]
        simp only [Vector.between, Vector.dot, div_neg]
        field_simp
        ring
      · intro _
        rfl
      · intro h _
        exact absurd h hx
      · intro h _
        exact absurd h hx
/-- Line::point (geometry/line.rs lines 44-47): the point of the line
nearest to the origin, computed by intersecting the line with the plane
through the origin whose normal is the line's own direction. -/
def Line.closestPoint (l : Line) : Option Point :=
  Plane.intersectionLine ⟨Point.origin, l.vector⟩ l

/-- PartialEq for Line (geometry/line.rs lines 54-61): the raw stored
direction vectors must be componentwise tolerantly equal up to sign, and
then (short-circuit) the closest points to the origin must be tolerantly
equal; computing a closest point can itself panic. -/
def Line.peq (a b : Line) : Option Bool :=
  if vecEq a.vector b.vector ∨ vecEq a.vector b.vector.neg then
    match a.closestPoint, b.closestPoint with
    | some pa, some pb => some (decide (pointEq pa pb))
    | _, _ => none
  else some false

/-- C6 counterexample: the lines through the origin with directions
(1 mm, 0, 0) and (2 mm, 0, 0) run through the same points, their unit
directions agree and their closest points to the origin agree, yet
`Line::eq` returns false because it compares the raw stored direction
vectors. -/
theorem C6_counterexample :
    Line.peq ⟨Point.origin, ⟨1, 0, 0⟩⟩ ⟨Point.origin, ⟨2, 0, 0⟩⟩ =
      some false ∧
    Vector.toUnitVector ⟨1, 0, 0⟩ = some ⟨1, 0, 0⟩ ∧
    Vector.toUnitVector ⟨2, 0, 0⟩ = some ⟨1, 0, 0⟩ ∧
    Line.closestPoint ⟨Point.origin, ⟨1, 0, 0⟩⟩ = some Point.origin ∧
    Line.closestPoint ⟨Point.origin, ⟨2, 0, 0⟩⟩ = some Point.origin := by
  have hn1 : Vector.norm ⟨1, 0, 0⟩ = 1 := by
    rw [Vector.norm]
    rw [show ((1 : ℝ) * 1 + 0 * 0 + 0 * 0) = 1 by norm_num]
    exact Real.sqrt_one
  have hn2 : Vector.norm ⟨2, 0, 0⟩ = 2 := by
    rw [Vector.norm]
    rw [show ((2 : ℝ) * 2 + 0 * 0 + 0 * 0) = (2 : ℝ) ^ 2 by norm_num]
    exact Real.sqrt_sq (by norm_num)
  refine ⟨?_, ?_, ?_, ?_, ?_⟩
  · rw [Line.peq, if_neg]
    rintro (⟨h, -⟩ | ⟨h, -⟩)
    · rw [sizeEq, roughEq, eps] at h
      norm_num at h
    · rw [Vector.neg] at h
      rw [sizeEq, roughEq, eps] at h
      norm_num at h
  · rw [Vector.toUnitVector, if_neg, Vector.unitOf, hn1]
    · norm_num
    · rw [hn1]
      rintro ⟨-, h⟩
      rw [eps] at h
      norm_num at h
  · rw [Vector.toUnitVector, if_neg, Vector.unitOf, hn2]
    · norm_num
    · rw [hn2]
      rintro ⟨-, h⟩
      rw [eps] at h
      norm_num at h
  · rw [Line.closestPoint, Plane.intersectionLine, if_neg]
    · simp only [Vector.dot, Vector.between, Point.origin, Option.some_inj,
        Point.mk.injEq]
      norm_num
    · rintro ⟨-, h⟩
      simp only [Vector.dot, eps] at h
      norm_num at h
  · rw [Line.closestPoint, Plane.intersectionLine, if_neg]
    · simp only [Vector.dot, Vector.between, Point.origin, Option.some_inj,
        Point.mk.injEq]
      norm_num
    · rintro ⟨-, h⟩
      simp only [Vector.dot, eps] at h
      norm_num at h

/-- C6 amended: `Line::eq` returns true iff the raw stored direction
vectors (not the unit directions) are componentwise tolerantly equal up to
sign AND the computed closest points to the origin exist and are tolerantly
equal; the computed closest point is indeed the foot of the perpendicular
from the origin: it lies on the line and is orthogonal to the direction. -/
theorem C6_line_eq_amended :
    ∀ a b : Line,
      (Line.peq a b = some true ↔
        ((vecEq a.vector b.vector ∨ vecEq a.vector b.vector.neg) ∧
          ∃ pa pb, a.closestPoint = some pa ∧ b.closestPoint = some pb ∧
            pointEq pa pb)) ∧
      ∀ q, a.closestPoint = some q →
        Line.carries a q ∧ (Vector.between Point.origin q).dot a.vector = 0 := by
  intro a b
  constructor
  · rw [Line.peq]
    by_cases hdir : vecEq a.vector b.vector ∨ vecEq a.vector b.vector.neg
    · rw [if_pos hdir]
      rcases hpa : a.closestPoint with _ | pa
      · simp [hpa]
      · rcases hpb : b.closestPoint with _ | pb
        · simp [hpa, hpb]
        · simp only [Option.some_inj, decide_eq_true_eq]
          constructor
          · intro h
            exact ⟨hdir, pa, pb, rfl, rfl, h⟩
          · rintro ⟨-, pa', pb', hpa', hpb', h⟩
            subst hpa'
            subst hpb'
            exact h
    · rw [if_neg hdir]
      constructor
      · intro h
        rw [Option.some_inj] at h
        cases h
      · rintro ⟨h, -⟩
        exact absurd h hdir
  · intro q hq
    rw [Line.closestPoint] at hq
    rw [Plane.intersectionLine, Option.ite_none_left_eq_some,
      Option.some_inj] at hq
    obtain ⟨hip, hq⟩ := hq
    have hne : Vector.dot a.vector a.vector ≠ 0 := ne_of_not_roughEq hip
    subst hq
    constructor
    · exact ⟨_, rfl⟩
    · obtain ⟨⟨lpx, lpy, lpz⟩, ⟨lvx, lvy, lvz⟩⟩ := a
      simp only [Vector.between, Vector.dot, Point.origin, Point.translated,
        Vector.smul] at hne ⊢
      field_simp
      ring

/-- Vector::angle_with: `acos(⟨a,b⟩ / (|a|·|b|))`. -/
def Vector.angleWith (a b : Vector) : ℝ :=
  Real.arccos (a.dot b / (a.norm * b.norm))

/-- Point::rotated about a Line axis (geometry/point.rs lines 64-71):
translate so the axis's reference point is the origin, rotate the offset
vector, translate back. -/
def Point.rotatedL (p : Point) (axis : Line) (θ : ℝ) : Option Point :=
  match (Vector.between axis.point p).rotated axis.vector θ with
  | none => none
  | some v => some (axis.point.translated v)

/-- Location (solid/location.rs): an origin point plus the stored right and
back direction vectors. -/
structure Location where
  point : Point
  rightVector : Vector
  backVector : Vector

/-- Location::new (solid/location.rs lines 46-60): panics unless the angle
formed by the two vectors equals 90° under the tolerant Angle equality,
then stores both vectors normalized (normalization itself panics on a
tolerantly-zero norm). -/
def Location.new (p : Point) (right back : Vector) : Option Location :=
  if ¬ angleEq (right.angleWith back) (Real.pi / 2) then none
  else
    match right.toUnitVector, back.toUnitVector with
    | some ru, some bu => some ⟨p, ru, bu⟩
    | _, _ => none

/-- Location::left_vector: negated right vector. -/
def Location.leftVector (loc : Location) : Vector := loc.rightVector.neg

/-- Location::front_vector: negated back vector. -/
def Location.frontVector (loc : Location) : Vector := loc.backVector.neg

/-- Location::top_vector: right × back. -/
def Location.topVector (loc : Location) : Vector :=
  loc.rightVector.cross loc.backVector

/-- Location::bottom_vector: back × right. -/
def Location.bottomVector (loc : Location) : Vector :=
  loc.backVector.cross loc.rightVector

/-- Default Location: origin, right = X, back = Y. -/
def Location.default : Location := ⟨Point.origin, Vector.xUnit, Vector.yUnit⟩

/-- Location translated (impl Transform for Location): only the origin
moves. -/
def Location.translated (loc : Location) (off : Vector) : Location :=
  ⟨loc.point.translated off, loc.rightVector, loc.backVector⟩

/-- Location rotated (impl Transform for Location): the origin is rotated
about the axis line, the two stored vectors about the axis direction. -/
def Location.rotated (loc : Location) (axis : Line) (θ : ℝ) : Option Location :=
  match loc.point.rotatedL axis θ, loc.rightVector.rotated axis.vector θ,
      loc.backVector.rotated axis.vector θ with
  | some p, some r, some b => some ⟨p, r, b⟩
  | _, _, _ => none

/-- Frame invariant of a Location: the stored vectors are unit vectors and
the angle they form is 90° within the tolerance. -/
def Location.invariant (loc : Location) : Prop :=
  loc.rightVector.norm = 1 ∧ loc.backVector.norm = 1 ∧
  angleEq (loc.rightVector.angleWith loc.backVector) (Real.pi / 2)

theorem Vector.dot_unitOf {a b : Vector} (ha : a.norm ≠ 0) (hb : b.norm ≠ 0) :
    a.unitOf.dot b.unitOf = a.dot b / (a.norm * b.norm) := by
  rw [Vector.unitOf, Vector.unitOf, Vector.dot, Vector.dot]
  field_simp
  try ring

theorem Vector.angleWith_unitOf {a b : Vector} (ha : a.norm ≠ 0)
    (hb : b.norm ≠ 0) : a.unitOf.angleWith b.unitOf = a.angleWith b := by
  rw [Vector.angleWith, Vector.angleWith, Vector.dot_unitOf ha hb,
    Vector.norm_unitOf ha, Vector.norm_unitOf hb]
  norm_num

theorem Vector.toUnitVector_some {v u : Vector}
    (h : v.toUnitVector = some u) : v.norm ≠ 0 ∧ u = v.unitOf := by
  rw [Vector.toUnitVector] at h
  by_cases hn : roughEq v.norm 0
  · rw [if_pos hn] at h
    cases h
  · rw [if_neg hn, Option.some_inj] at h
    exact ⟨Vector.norm_ne_zero_of_not_roughEq hn, h.symm⟩

theorem Vector.rotated_some_axis {v a : Vector} {θ : ℝ} {w : Vector}
    (h : v.rotated a θ = some w) : ¬ roughEq a.norm 0 := by
  by_cases hn : roughEq a.norm 0
  · rw [Vector.rotated] at h
    rw [Vector.toUnitVector] at h
    rw [if_pos hn] at h
    cases h
  · exact hn

/-- C8: a Location built by Location::new satisfies the frame invariant
(stored right and back are unit vectors forming a 90° angle within
tolerance), the derived directions are top = right × back,
bottom = back × right, left = −right, front = −back; construction from two
vectors whose angle is not 90° within tolerance panics; and translated and
rotated preserve the invariant. -/
theorem C8_location_frame_invariant :
    (∀ (p : Point) (right back : Vector) (loc : Location),
      Location.new p right back = some loc →
      loc.invariant ∧
      loc.topVector = loc.rightVector.cross loc.backVector ∧
      loc.bottomVector = loc.backVector.cross loc.rightVector ∧
      loc.leftVector = loc.rightVector.neg ∧
      loc.frontVector = loc.backVector.neg) ∧
    (∀ (p : Point) (right back : Vector),
      ¬ angleEq (right.angleWith back) (Real.pi / 2) →
      Location.new p right back = none) ∧
    (∀ (loc : Location) (off : Vector), loc.invariant →
      (loc.translated off).invariant) ∧
    (∀ (loc loc' : Location) (axis : Line) (θ : ℝ), loc.invariant →
      Location.rotated loc axis θ = some loc' → loc'.invariant) := by
  refine ⟨?_, ?_, ?_, ?_⟩
  · intro p right back loc h
    rw [Location.new] at h
    by_cases hang : angleEq (right.angleWith back) (Real.pi / 2)
    · rw [if_neg (not_not_intro hang)] at h
      rcases hru : right.toUnitVector with _ | ru
      · rw [hru] at h
        cases h
      · rcases hbu : back.toUnitVector with _ | bu
        · rw [hru, hbu] at h
          cases h
        · rw [hru, hbu, Option.some_inj] at h
          subst h
          obtain ⟨hrn, hre⟩ := Vector.toUnitVector_some hru
          obtain ⟨hbn, hbe⟩ := Vector.toUnitVector_some hbu
          subst hre
          subst hbe
          refine ⟨⟨Vector.norm_unitOf hrn, Vector.norm_unitOf hbn, ?_⟩,
            rfl, rfl, rfl, rfl⟩
          rw [Vector.angleWith_unitOf hrn hbn]
          exact hang
    · rw [if_pos hang] at h
      cases h
  · intro p right back hna
    rw [Location.new, if_pos hna]
  · intro loc off h
    exact h
  · intro loc loc' axis θ hinv hrot
    rw [Location.rotated] at hrot
    rcases hp : loc.point.rotatedL axis θ with _ | p'
    · rw [hp] at hrot
      cases hrot
    · rcases hr : loc.rightVector.rotated axis.vector θ with _ | r'
      · rw [hp, hr] at hrot
        cases hrot
      · rcases hb : loc.backVector.rotated axis.vector θ with _ | b'
        · rw [hp, hr, hb] at hrot
          cases hrot
        · rw [hp, hr, hb, Option.some_inj] at hrot
          subst hrot
          obtain ⟨hrn, hbn, hang⟩ := hinv
          have haxis := Vector.rotated_some_axis hr
          have hrr : r'.dot r' = loc.rightVector.dot loc.rightVector :=
            Vector.rotated_dot haxis hr hr
          have hbb : b'.dot b' = loc.backVector.dot loc.backVector :=
            Vector.rotated_dot haxis hb hb
          have hrb : r'.dot b' = loc.rightVector.dot loc.backVector :=
            Vector.rotated_dot haxis hr hb
          have hrd : loc.rightVector.dot loc.rightVector = 1 := by
            rw [← Vector.norm_mul_self, hrn]
            norm_num
          have hbd : loc.backVector.dot loc.backVector = 1 := by
            rw [← Vector.norm_mul_self, hbn]
            norm_num
          have hrn' : Vector.norm r' = 1 :=
            Vector.norm_eq_one_of_dot_self_eq_one (by rw [hrr, hrd])
          have hbn' : Vector.norm b' = 1 :=
            Vector.norm_eq_one_of_dot_self_eq_one (by rw [hbb, hbd])
          refine ⟨hrn', hbn', ?_⟩
          have heq : r'.angleWith b' =
              loc.rightVector.angleWith loc.backVector := by
            rw [Vector.angleWith, Vector.angleWith, hrb, hrn', hbn', hrn, hbn]
          rw [heq]
          exact hang

/-- Facet (stl_solid.rs lines 9-11): exactly three vertices. -/
structure Facet where
  v1 : Point
  v2 : Point
  v3 : Point

/-- Vertices of a facet as a list. -/
def Facet.vertexList (f : Facet) : List Point := [f.v1, f.v2, f.v3]

/-- StlSolid (stl_solid.rs lines 5-7): the ordered collection of facets. -/
structure StlSolid where
  facets : List Facet

/-- Degree-to-radian conversion used by `deg()` literals:
`self.to_radians() = self * (π / 180)`. -/
def degToRad (d : ℝ) : ℝ := d * (Real.pi / 180)

/-- angle_count (geometry/angle_iterator.rs lines 12-28) for an exclusive
range: the tolerant comparisons of Angle decide the direction, and the
length is `(end ∓ ε − start) / step` truncated to usize (saturating at 0
for a negative quotient) plus one. -/
def angleCount (start stop step : ℝ) : ℕ :=
  if roughLt start stop then
    if roughLt step 0 then 0
    else (⌊(stop - eps - start) / step⌋).toNat + 1
  else
    if roughGt step 0 then 0
    else (⌊(stop + eps - start) / step⌋).toNat + 1

/-- The values an AngleIterator of the given length yields: start,
start + step, start + 2·step, ... (exact accumulation over the reals). -/
def angleValues (start step : ℝ) (len : ℕ) : List ℝ :=
  (List.range len).map (fun i : ℕ => start + step * (i : ℝ))

/-- Panic-threading map: the Vec that Rust would collect, or `none` when
producing any element panics. -/
def optMap {α β : Type} (f : α → Option β) : List α → Option (List β)
  | [] => some []
  | a :: l =>
    match f a, optMap f l with
    | some b, some r => some (b :: r)
    | _, _ => none

/-- The `points.iter().skip(1).chain(points.first())` rotation used to pair
each ring point with its successor. -/
def shiftedCycle {α : Type} (l : List α) : List α := l.drop 1 ++ l.take 1

/-- Facet assembly of Cylinder::generate_stl_solid from the ring of rotated
back-directions: ring points at the radius are produced at the bottom and
translated to the top; the bottom fan, the side quads (two triangles each)
and the top fan are concatenated in that order. -/
def cylinderMesh (loc : Location) (height radius : ℝ)
    (ringDirs : List Vector) : StlSolid :=
  let bottomPoint := loc.point
  let topPoint := bottomPoint.translatedToward loc.topVector height
  let bottomPoints := ringDirs.map
    (fun v => bottomPoint.translatedToward v radius)
  let topPoints := bottomPoints.map
    (fun q => q.translatedToward loc.topVector height)
  let zippedBottom := bottomPoints.zip (shiftedCycle bottomPoints)
  let zippedTop := topPoints.zip (shiftedCycle topPoints)
  let bottomFacets := zippedBottom.map
    (fun ab => Facet.mk bottomPoint ab.2 ab.1)
  let topFacets := zippedTop.map
    (fun ab => Facet.mk topPoint ab.1 ab.2)
  let sideFacets := (zippedBottom.zip zippedTop).flatMap
    (fun bt => [Facet.mk bt.1.1 bt.2.2 bt.2.1,
      Facet.mk bt.2.2 bt.1.1 bt.1.2])
  StlSolid.mk (bottomFacets ++ sideFacets ++ topFacets)

/-- Cylinder::generate_stl_solid (solid/primitive/cylinder.rs lines 24-76),
parametrized by the configured fragment-minimum angle: a ring of directions
is generated by rotating the location's back vector about the top vector
through `Angle::iterate(0°..360°).step(minAngle)` (each rotation can panic
on a degenerate top vector), then the facets are assembled. -/
def Cylinder.generateStlSolid (loc : Location) (height radius minAngle : ℝ) :
    Option StlSolid :=
  Option.map (cylinderMesh loc height radius)
    (optMap (fun a => loc.backVector.rotated loc.topVector a)
      (angleValues (degToRad 0) minAngle
        (angleCount (degToRad 0) (degToRad 360) minAngle)))

/-- Facet assembly of Cone::generate_stl_solid from the ring of rotated
back-directions: a bottom fan and one triangle per ring segment up to the
apex. -/
def coneMesh (loc : Location) (height bottomRadius : ℝ)
    (ringDirs : List Vector) : StlSolid :=
  let bottomPoint := loc.point
  let topPoint := bottomPoint.translatedToward loc.topVector height
  let points := ringDirs.map
    (fun v => bottomPoint.translatedToward v bottomRadius)
  let zipped := points.zip (shiftedCycle points)
  let bottomFacets := zipped.map
    (fun ab => Facet.mk bottomPoint ab.2 ab.1)
  let sideFacets := zipped.map
    (fun ab => Facet.mk ab.1 ab.2 topPoint)
  StlSolid.mk (bottomFacets ++ sideFacets)

/-- Cone::generate_stl_solid (solid/primitive/cone.rs lines 24-57): same
ring as the cylinder, then the cone facets are assembled. -/
def Cone.generateStlSolid (loc : Location) (height bottomRadius minAngle : ℝ) :
    Option StlSolid :=
  Option.map (coneMesh loc height bottomRadius)
    (optMap (fun a => loc.backVector.rotated loc.topVector a)
      (angleValues (degToRad 0) minAngle
        (angleCount (degToRad 0) (degToRad 360) minAngle)))

theorem optMap_some_of_forall {α β : Type} (f : α → Option β) (P : β → Prop)
    (l : List α) (h : ∀ a ∈ l, ∃ b, f a = some b ∧ P b) :
    ∃ r, optMap f l = some r ∧ r.length = l.length ∧ ∀ b ∈ r, P b := by
  induction l with
  | nil => exact ⟨[], rfl, rfl, by simp⟩
  | cons a l ih =>
    obtain ⟨b, hb, hPb⟩ := h a (by simp)
    obtain ⟨r, hr, hlen, hall⟩ := ih (fun a' ha' => h a' (by simp [ha']))
    refine ⟨b :: r, ?_, by simp [hlen], ?_⟩
    · rw [optMap, hb, hr]
    · intro c hc
      rcases List.mem_cons.mp hc with rfl | hc
      · exact hPb
      · exact hall c hc

theorem shiftedCycle_length {α : Type} (l : List α) :
    (shiftedCycle l).length = l.length := by
  rw [shiftedCycle]
  simp
  omega

theorem length_flatMap_pair {α β : Type} (l : List α) (f g : α → β) :
    (l.flatMap (fun a => [f a, g a])).length = 2 * l.length := by
  induction l with
  | nil => rfl
  | cons a l ih =>
    simp only [List.flatMap_cons, List.length_append, List.length_cons,
      List.length_nil, ih]
    omega

theorem angleValues_length (start step : ℝ) (len : ℕ) :
    (angleValues start step len).length = len := by
  rw [angleValues, List.length_map, List.length_range]

theorem cylinderMesh_length (loc : Location) (height radius : ℝ)
    (ringDirs : List Vector) :
    (cylinderMesh loc height radius ringDirs).facets.length =
      4 * ringDirs.length := by
  simp only [cylinderMesh, List.length_append, List.length_map,
    List.length_zip, shiftedCycle_length, length_flatMap_pair, min_self]
  omega

theorem coneMesh_length (loc : Location) (height bottomRadius : ℝ)
    (ringDirs : List Vector) :
    (coneMesh loc height bottomRadius ringDirs).facets.length =
      2 * ringDirs.length := by
  simp only [coneMesh, List.length_append, List.length_map,
    List.length_zip, shiftedCycle_length, min_self]
  omega

theorem cylinder_facet_count (loc : Location) (height radius m : ℝ)
    (htop : ¬ roughEq loc.topVector.norm 0) :
    ∃ s, Cylinder.generateStlSolid loc height radius m = some s ∧
      s.facets.length = 4 * angleCount (degToRad 0) (degToRad 360) m := by
  obtain ⟨rd, hrd, hlen, -⟩ := optMap_some_of_forall
    (fun a => loc.backVector.rotated loc.topVector a) (fun _ => True)
    (angleValues (degToRad 0) m (angleCount (degToRad 0) (degToRad 360) m))
    (fun a _ => ⟨_, Vector.rotated_eq_rod htop _ a, trivial⟩)
  refine ⟨cylinderMesh loc height radius rd, ?_, ?_⟩
  · rw [Cylinder.generateStlSolid, hrd]
    rfl
  · rw [cylinderMesh_length, hlen, angleValues_length]

theorem cone_facet_count (loc : Location) (height bottomRadius m : ℝ)
    (htop : ¬ roughEq loc.topVector.norm 0) :
    ∃ s, Cone.generateStlSolid loc height bottomRadius m = some s ∧
      s.facets.length = 2 * angleCount (degToRad 0) (degToRad 360) m := by
  obtain ⟨rd, hrd, hlen, -⟩ := optMap_some_of_forall
    (fun a => loc.backVector.rotated loc.topVector a) (fun _ => True)
    (angleValues (degToRad 0) m (angleCount (degToRad 0) (degToRad 360) m))
    (fun a _ => ⟨_, Vector.rotated_eq_rod htop _ a, trivial⟩)
  refine ⟨coneMesh loc height bottomRadius rd, ?_, ?_⟩
  · rw [Cone.generateStlSolid, hrd]
    rfl
  · rw [coneMesh_length, hlen, angleValues_length]

theorem degToRad_zero : degToRad 0 = 0 := by
  rw [degToRad]
  ring

theorem degToRad_360 : degToRad 360 = 2 * Real.pi := by
  rw [degToRad]
  ring

theorem angleCount_zero_to_360 {m : ℝ} (hm : 0 < m) :
    angleCount (degToRad 0) (degToRad 360) m =
      (⌊(degToRad 360 - eps) / m⌋).toNat + 1 := by
  have hpi := Real.pi_gt_three
  have hlt : roughLt (degToRad 0) (degToRad 360) := by
    rw [roughLt, degToRad_zero, degToRad_360, eps]
    linarith
  have hstep : ¬ roughLt m 0 := by
    rw [roughLt]
    push_neg
    linarith [eps_pos]
  rw [angleCount, if_pos hlt, if_neg hstep, degToRad_zero, sub_zero]

theorem Location.default_top_norm : Location.default.topVector.norm = 1 := by
  simp only [Location.default, Location.topVector, Vector.cross,
    Vector.xUnit, Vector.yUnit, Vector.norm]
  rw [show ((0 : ℝ) * 0 - 0 * 1) * (0 * 0 - 0 * 1) +
      (0 * 0 - 1 * 0) * (0 * 0 - 1 * 0) +
      (1 * 1 - 0 * 0) * (1 * 1 - 0 * 0) = 1 by norm_num]
  exact Real.sqrt_one

theorem Location.default_top_not_zero :
    ¬ roughEq Location.default.topVector.norm 0 := by
  rw [Location.default_top_norm]
  rintro ⟨-, h⟩
  rw [eps] at h
  norm_num at h

/-- C2 amended: for a fragment-minimum angle s > 0 the cylinder mesh has
exactly 4·N facets and the cone mesh exactly 2·N facets, where
N = ⌊(360° − ε)/s⌋ + 1 is the number of ring points the tolerant angle
iterator yields for 0°..360°; N agrees with ⌈360°/s⌉ except when 360°
exceeds a multiple of s by at most ε (then the iterator yields one point
fewer). -/
theorem C2_cylinder_cone_facet_count :
    ∀ (loc : Location) (height radius m : ℝ),
      ¬ roughEq loc.topVector.norm 0 → 0 < m →
      ∃ scyl scone,
        Cylinder.generateStlSolid loc height radius m = some scyl ∧
        Cone.generateStlSolid loc height radius m = some scone ∧
        scyl.facets.length = 4 * ((⌊(degToRad 360 - eps) / m⌋).toNat + 1) ∧
        scone.facets.length = 2 * ((⌊(degToRad 360 - eps) / m⌋).toNat + 1) := by
  intro loc height radius m htop hm
  obtain ⟨scyl, hcyl, hcyllen⟩ := cylinder_facet_count loc height radius m htop
  obtain ⟨scone, hcone, hconelen⟩ := cone_facet_count loc height radius m htop
  exact ⟨scyl, scone, hcyl, hcone,
    by rw [hcyllen, angleCount_zero_to_360 hm],
    by rw [hconelen, angleCount_zero_to_360 hm]⟩

/-- C2 witness: the hypotheses are satisfiable, e.g. at the default
location with a 7-radian step. -/
theorem C2_cylinder_cone_facet_count_witness :
    ¬ roughEq Location.default.topVector.norm 0 ∧ (0 : ℝ) < 7 ∧
    ∃ scyl scone,
      Cylinder.generateStlSolid Location.default 3 5 7 = some scyl ∧
      Cone.generateStlSolid Location.default 3 5 7 = some scone ∧
      scyl.facets.length = 4 * ((⌊(degToRad 360 - eps) / 7⌋).toNat + 1) ∧
      scone.facets.length = 2 * ((⌊(degToRad 360 - eps) / 7⌋).toNat + 1) :=
  ⟨Location.default_top_not_zero, by norm_num,
    C2_cylinder_cone_facet_count Location.default 3 5 7
      Location.default_top_not_zero (by norm_num)⟩

/-- C2 counterexample: with the step s = 2π − 1e-11 radians (just below
360°), 360° divided by s has ceiling 2, so the claim predicts 8 cylinder
facets, but the generated mesh has 4: the tolerant iterator emits a single
ring point because 360° exceeds s by less than ε. -/
theorem C2_counterexample :
    ∃ s : StlSolid,
      Cylinder.generateStlSolid Location.default 3 5 (2 * Real.pi - 1e-11) =
        some s ∧
      s.facets.length = 4 ∧
      Nat.ceil (degToRad 360 / (2 * Real.pi - 1e-11)) = 2 ∧
      s.facets.length ≠
        4 * Nat.ceil (degToRad 360 / (2 * Real.pi - 1e-11)) := by
  have hpi := Real.pi_gt_three
  have hden : (0 : ℝ) < 2 * Real.pi - 1e-11 := by linarith
  obtain ⟨s, hs, hslen⟩ :=
    cylinder_facet_count Location.default 3 5 (2 * Real.pi - 1e-11)
      Location.default_top_not_zero
  have hcount : angleCount (degToRad 0) (degToRad 360) (2 * Real.pi - 1e-11)
      = 1 := by
    rw [angleCount_zero_to_360 hden]
    have hfloor : ⌊(degToRad 360 - eps) / (2 * Real.pi - 1e-11)⌋ = 0 := by
      rw [Int.floor_eq_zero_iff, Set.mem_Ico]
      constructor
      · apply div_nonneg _ (le_of_lt hden)
        rw [degToRad_360, eps]
        linarith
      · rw [div_lt_one hden, degToRad_360, eps]
        linarith
    rw [hfloor]
    rfl
  have hceil : Nat.ceil (degToRad 360 / (2 * Real.pi - 1e-11)) = 2 := by
    have h1 : (1 : ℝ) < degToRad 360 / (2 * Real.pi - 1e-11) := by
      rw [degToRad_360, lt_div_iff₀ hden]
      linarith
    have h2 : degToRad 360 / (2 * Real.pi - 1e-11) ≤ 2 := by
      rw [degToRad_360, div_le_iff₀ hden]
      linarith
    rw [Nat.ceil_eq_iff (by norm_num)]
    constructor
    · push_cast
      linarith
    · push_cast
      linarith
  refine ⟨s, hs, ?_, hceil, ?_⟩
  · rw [hslen, hcount]
  · rw [hslen, hcount, hceil]
    norm_num

/-- Line::X_AXIS. -/
def Line.xAxis : Line := ⟨Point.origin, Vector.xUnit⟩

/-- Line::Y_AXIS. -/
def Line.yAxis : Line := ⟨Point.origin, Vector.yUnit⟩

/-- One cell of the sphere octant (solid/primitive/sphere.rs lines 40-55):
the two band points are rotated about the Y axis by the cell's two
azimuthal angles; the first triangle is always emitted, the second only
when `ba != bb` under the tolerant Point equality. -/
def sphereCellFacets (a b : Point) (zab : ℝ × ℝ) : Option (List Facet) :=
  match a.rotatedL Line.yAxis zab.1, a.rotatedL Line.yAxis zab.2,
      b.rotatedL Line.yAxis zab.1, b.rotatedL Line.yAxis zab.2 with
  | some aa, some ab, some ba, some bb =>
    some (Facet.mk aa ba ab ::
      (if pointEq ba bb then [] else [Facet.mk bb ab ba]))
  | _, _, _, _ => none

/-- One polar band of the sphere octant (solid/primitive/sphere.rs lines
36-56): the pole point is rotated about the X axis by the band's two polar
angles, then every azimuthal cell is emitted. -/
def sphereBand (p : Point) (zipped : List (ℝ × ℝ)) (yab : ℝ × ℝ) :
    Option (List Facet) :=
  match p.rotatedL Line.xAxis yab.1, p.rotatedL Line.xAxis yab.2 with
  | some a, some b => Option.map List.flatten (optMap (sphereCellFacets a b) zipped)
  | _, _ => none

/-- The positive-octant facets of Sphere::generate_stl_solid (lines 28-57):
angles 0°..90° in the configured step, each paired with its successor (the
last with 90°); the start point is the origin translated toward Z by the
radius. -/
def sphereOctant (radius m : ℝ) : Option (List Facet) :=
  let lA := angleValues (degToRad 0) m
    (angleCount (degToRad 0) (degToRad 90) m)
  let zipped := lA.zip (lA.drop 1 ++ [degToRad 90])
  let p := Point.origin.translatedToward Vector.zUnit radius
  Option.map List.flatten (optMap (sphereBand p zipped) zipped)

/-- The negative helper (sphere.rs lines 109-121): flip the chosen
coordinates of a vertex. -/
def negPoint (q : Point) (x y z : Bool) : Point :=
  ⟨if x then -q.x else q.x, if y then -q.y else q.y, if z then -q.z else q.z⟩

/-- The negative helper applied to all three vertices of a facet. -/
def negativeFacet (f : Facet) (x y z : Bool) : Facet :=
  ⟨negPoint f.v1 x y z, negPoint f.v2 x y z, negPoint f.v3 x y z⟩

/-- The reverse helper (sphere.rs lines 123-127): swap the second and third
vertices. -/
def reverseFacet (f : Facet) : Facet := ⟨f.v1, f.v3, f.v2⟩

/-- The locate helper (sphere.rs lines 129-134): translate every vertex by
the offset from the origin to the location's point. -/
def locateFacet (f : Facet) (loc : Location) : Facet :=
  ⟨f.v1.translated (Vector.between Point.origin loc.point),
    f.v2.translated (Vector.between Point.origin loc.point),
    f.v3.translated (Vector.between Point.origin loc.point)⟩

/-- The mirror-replication step (sphere.rs lines 59-77): octant copy i has
its coordinates negated according to the three low bits of i, its winding
reversed when an odd number of axes were negated, and is then located. -/
def octantTransform (i : ℕ) (loc : Location) (f : Facet) : Facet :=
  let xn := i.testBit 0
  let yn := i.testBit 1
  let zn := i.testBit 2
  locateFacet
    (if xor (xor xn yn) zn then reverseFacet (negativeFacet f xn yn zn)
      else negativeFacet f xn yn zn) loc

/-- Sphere::generate_stl_solid (solid/primitive/sphere.rs lines 27-80):
the octant facets followed by their 7 mirrored copies, every facet
located at the target location. -/
def Sphere.generateStlSolid (loc : Location) (radius m : ℝ) :
    Option StlSolid :=
  Option.map
    (fun F => StlSolid.mk
      ((List.range 8).flatMap (fun i => F.map (octantTransform i loc))))
    (sphereOctant radius m)

theorem dist_origin_eq_sqrt_dot (q : Point) :
    Point.origin.distance q =
      Real.sqrt ((Vector.between Point.origin q).dot
        (Vector.between Point.origin q)) := by
  rw [Point.distance, Vector.norm, Vector.dot]

theorem dist_origin_translated (w : Vector) :
    Point.origin.distance (Point.origin.translated w) =
      Real.sqrt (w.dot w) := by
  simp only [Point.distance, Point.translated, Point.origin, Vector.between,
    Vector.norm, Vector.dot]
  norm_num

theorem not_roughEq_one_zero : ¬ roughEq 1 0 := by
  rintro ⟨-, h⟩
  rw [eps] at h
  norm_num at h

/-- Rotating a point about an axis line through the origin with a unit
direction yields a point at the same distance from the origin. -/
theorem Point.rotatedL_distOrigin {axis : Line} (hax : axis.point = Point.origin)
    (hunit : axis.vector.dot axis.vector = 1) (q : Point) (θ : ℝ) :
    ∃ q', q.rotatedL axis θ = some q' ∧
      Point.origin.distance q' = Point.origin.distance q := by
  have hn1 : axis.vector.norm = 1 := Vector.norm_eq_one_of_dot_self_eq_one hunit
  have hnz : ¬ roughEq axis.vector.norm 0 := by
    rw [hn1]
    exact not_roughEq_one_zero
  obtain ⟨w, hw, hdw⟩ :=
    Vector.rotated_isSome hnz (Vector.between axis.point q) θ
  refine ⟨axis.point.translated w, ?_, ?_⟩
  · rw [Point.rotatedL, hw]
  · rw [hax] at hw ⊢
    rw [dist_origin_translated, dist_origin_eq_sqrt_dot q, hdw, hax]

theorem xUnit_dot_self : Vector.xUnit.dot Vector.xUnit = 1 := by
  rw [Vector.dot, Vector.xUnit]
  norm_num

theorem yUnit_dot_self : Vector.yUnit.dot Vector.yUnit = 1 := by
  rw [Vector.dot, Vector.yUnit]
  norm_num

theorem xAxis_vector_dot : Line.xAxis.vector.dot Line.xAxis.vector = 1 :=
  xUnit_dot_self

theorem yAxis_vector_dot : Line.yAxis.vector.dot Line.yAxis.vector = 1 :=
  yUnit_dot_self

theorem sphereCellFacets_dist {a b : Point} {r : ℝ} (zab : ℝ × ℝ)
    (hda : Point.origin.distance a = r) (hdb : Point.origin.distance b = r) :
    ∃ fl, sphereCellFacets a b zab = some fl ∧
      ∀ f ∈ fl, ∀ v ∈ f.vertexList, Point.origin.distance v = r := by
  obtain ⟨aa, haa, hdaa⟩ :=
    @Point.rotatedL_distOrigin Line.yAxis rfl yAxis_vector_dot a zab.1
  obtain ⟨ab, hab, hdab⟩ :=
    @Point.rotatedL_distOrigin Line.yAxis rfl yAxis_vector_dot a zab.2
  obtain ⟨ba, hba, hdba⟩ :=
    @Point.rotatedL_distOrigin Line.yAxis rfl yAxis_vector_dot b zab.1
  obtain ⟨bb, hbb, hdbb⟩ :=
    @Point.rotatedL_distOrigin Line.yAxis rfl yAxis_vector_dot b zab.2
  refine ⟨Facet.mk aa ba ab ::
    (if pointEq ba bb then [] else [Facet.mk bb ab ba]), ?_, ?_⟩
  · rw [sphereCellFacets, haa, hab, hba, hbb]
  · intro f hf v hv
    by_cases hc : pointEq ba bb
    · rw [if_pos hc] at hf
      rcases List.mem_singleton.mp hf with rfl
      simp only [Facet.vertexList, List.mem_cons, List.not_mem_nil,
        or_false] at hv
      rcases hv with rfl | rfl | rfl
      · rw [hdaa, hda]
      · rw [hdba, hdb]
      · rw [hdab, hda]
    · rw [if_neg hc] at hf
      rcases List.mem_cons.mp hf with rfl | hf
      · simp only [Facet.vertexList, List.mem_cons, List.not_mem_nil,
          or_false] at hv
        rcases hv with rfl | rfl | rfl
        · rw [hdaa, hda]
        · rw [hdba, hdb]
        · rw [hdab, hda]
      · rcases List.mem_singleton.mp hf with rfl
        simp only [Facet.vertexList, List.mem_cons, List.not_mem_nil,
          or_false] at hv
        rcases hv with rfl | rfl | rfl
        · rw [hdbb, hdb]
        · rw [hdab, hda]
        · rw [hdba, hdb]

theorem sphereBand_dist {p : Point} {r : ℝ} (zipped : List (ℝ × ℝ))
    (yab : ℝ × ℝ) (hdp : Point.origin.distance p = r) :
    ∃ fl, sphereBand p zipped yab = some fl ∧
      ∀ f ∈ fl, ∀ v ∈ f.vertexList, Point.origin.distance v = r := by
  obtain ⟨a, ha, hda⟩ :=
    @Point.rotatedL_distOrigin Line.xAxis rfl xAxis_vector_dot p yab.1
  obtain ⟨b, hb, hdb⟩ :=
    @Point.rotatedL_distOrigin Line.xAxis rfl xAxis_vector_dot p yab.2
  obtain ⟨L, hL, -, hall⟩ := optMap_some_of_forall (sphereCellFacets a b)
    (fun fl => ∀ f ∈ fl, ∀ v ∈ f.vertexList, Point.origin.distance v = r)
    zipped
    (fun zab _ => sphereCellFacets_dist zab (hda.trans hdp) (hdb.trans hdp))
  refine ⟨L.flatten, ?_, ?_⟩
  · rw [sphereBand, ha, hb]
    show Option.map List.flatten (optMap (sphereCellFacets a b) zipped) =
      some L.flatten
    rw [hL]
    rfl
  · intro f hf
    obtain ⟨l, hl, hfl⟩ := List.mem_flatten.mp hf
    exact hall l hl f hfl

theorem dist_origin_pole {r : ℝ} (hr : 0 ≤ r) :
    Point.origin.distance
      (Point.origin.translatedToward Vector.zUnit r) = r := by
  have hz : Vector.norm Vector.zUnit = 1 := by
    rw [Vector.norm, Vector.zUnit]
    rw [show ((0 : ℝ) * 0 + 0 * 0 + 1 * 1) = 1 by norm_num]
    exact Real.sqrt_one
  rw [Point.translatedToward, dist_origin_translated, hz]
  simp only [Vector.smul, Vector.zUnit, Vector.dot]
  rw [show (r / 1 * 0 * (r / 1 * 0) + r / 1 * 0 * (r / 1 * 0) +
      r / 1 * 1 * (r / 1 * 1)) = r ^ 2 by ring]
  exact Real.sqrt_sq hr

theorem sphereOctant_dist (radius m : ℝ) (hr : 0 ≤ radius) :
    ∃ F, sphereOctant radius m = some F ∧
      ∀ f ∈ F, ∀ v ∈ f.vertexList, Point.origin.distance v = radius := by
  obtain ⟨L, hL, -, hall⟩ := optMap_some_of_forall
    (sphereBand (Point.origin.translatedToward Vector.zUnit radius)
      ((angleValues (degToRad 0) m (angleCount (degToRad 0) (degToRad 90) m)).zip
        ((angleValues (degToRad 0) m
          (angleCount (degToRad 0) (degToRad 90) m)).drop 1 ++ [degToRad 90])))
    (fun fl => ∀ f ∈ fl, ∀ v ∈ f.vertexList, Point.origin.distance v = radius)
    ((angleValues (degToRad 0) m (angleCount (degToRad 0) (degToRad 90) m)).zip
      ((angleValues (degToRad 0) m
        (angleCount (degToRad 0) (degToRad 90) m)).drop 1 ++ [degToRad 90]))
    (fun yab _ => sphereBand_dist _ yab (dist_origin_pole hr))
  refine ⟨L.flatten, ?_, ?_⟩
  · rw [sphereOctant, hL]
    rfl
  · intro f hf
    obtain ⟨l, hl, hfl⟩ := List.mem_flatten.mp hf
    exact hall l hl f hfl

theorem negPoint_dist (q : Point) (x y z : Bool) :
    Point.origin.distance (negPoint q x y z) = Point.origin.distance q := by
  cases x <;> cases y <;> cases z <;>
    simp only [negPoint, Point.distance, Point.origin, Vector.between,
      Vector.norm, Bool.false_eq_true, if_true, if_false, ite_true,
      ite_false] <;>
    (congr 1) <;> ring

theorem dist_locate (lp q : Point) :
    lp.distance (q.translated (Vector.between Point.origin lp)) =
      Point.origin.distance q := by
  simp only [Point.distance, Point.translated, Point.origin, Vector.between,
    Vector.norm]
  congr 1
  ring

theorem octantTransform_dist {f : Facet} {r : ℝ} (i : ℕ) (loc : Location)
    (hf : ∀ v ∈ f.vertexList, Point.origin.distance v = r) :
    ∀ v ∈ (octantTransform i loc f).vertexList, loc.point.distance v = r := by
  have h1 := hf f.v1 (by simp [Facet.vertexList])
  have h2 := hf f.v2 (by simp [Facet.vertexList])
  have h3 := hf f.v3 (by simp [Facet.vertexList])
  intro v hv
  rw [octantTransform] at hv
  by_cases hp : xor (xor (i.testBit 0) (i.testBit 1)) (i.testBit 2)
  · rw [if_pos hp] at hv
    simp only [locateFacet, reverseFacet, negativeFacet,
      Facet.vertexList, List.mem_cons, List.mem_singleton] at hv
    rcases hv with rfl | rfl | rfl | h
    · rw [dist_locate, negPoint_dist, h1]
    · rw [dist_locate, negPoint_dist, h3]
    · rw [dist_locate, negPoint_dist, h2]
    · cases h
  · rw [if_neg hp] at hv
    simp only [locateFacet, negativeFacet,
      Facet.vertexList, List.mem_cons, List.mem_singleton] at hv
    rcases hv with rfl | rfl | rfl | h
    · rw [dist_locate, negPoint_dist, h1]
    · rw [dist_locate, negPoint_dist, h2]
    · rw [dist_locate, negPoint_dist, h3]
    · cases h

/-- C3: every vertex of every facet of the sphere mesh is at distance r
from the Location's point (exactly, in real arithmetic, hence within the ε
tolerance): the octant points are rotations of (0,0,r) about the X and Y
axes, coordinate negation preserves distance to the origin, winding
reversal only permutes vertices, and the final translation recenters the
mesh at the Location's point. -/
theorem C3_sphere_vertex_distance :
    ∀ (loc : Location) (radius m : ℝ), 0 ≤ radius →
      ∃ sol, Sphere.generateStlSolid loc radius m = some sol ∧
        ∀ f ∈ sol.facets, ∀ v ∈ f.vertexList,
          loc.point.distance v = radius ∧
          sizeEq (loc.point.distance v) radius := by
  intro loc radius m hr
  obtain ⟨F, hF, hall⟩ := sphereOctant_dist radius m hr
  refine ⟨StlSolid.mk
    ((List.range 8).flatMap (fun i => F.map (octantTransform i loc))), ?_, ?_⟩
  · rw [Sphere.generateStlSolid, hF]
    rfl
  · intro f hf v hv
    obtain ⟨i, -, hfi⟩ := List.mem_flatMap.mp hf
    obtain ⟨f0, hf0, rfl⟩ := List.mem_map.mp hfi
    have hd := octantTransform_dist i loc (hall f0 hf0) v hv
    exact ⟨hd, by rw [sizeEq, hd]; exact roughEq_refl radius⟩

/-- C3 witness: the radius hypothesis is satisfiable, e.g. a sphere of
radius 3 mm at the default location with a 2-radian step. -/
theorem C3_sphere_vertex_distance_witness :
    (0 : ℝ) ≤ 3 ∧
    ∃ sol, Sphere.generateStlSolid Location.default 3 2 = some sol ∧
      ∀ f ∈ sol.facets, ∀ v ∈ f.vertexList,
        Location.default.point.distance v = 3 ∧
        sizeEq (Location.default.point.distance v) 3 :=
  ⟨by norm_num,
    C3_sphere_vertex_distance Location.default 3 2 (by norm_num)⟩

/-- Facet::normal_vector (stl_solid.rs lines 13-19): the normalized cross
product of the two edge vectors v1→v2 and v2→v3; normalization panics when
that cross product is the zero vector. -/
def Facet.normalVector (f : Facet) : Option Vector :=
  ((Vector.between f.v1 f.v2).cross (Vector.between f.v2 f.v3)).toUnitVector

/-- StlWriteError (stl/write_stl.rs lines 7-11). -/
inductive StlWriteError where
  | tooManyFacets

/-- write_facet (stl/write_stl.rs lines 40-48): the facet's normal
(computed by Facet::normal_vector, which panics on a degenerate facet)
followed by the three vertices; the two trailing padding bytes carry no
data and are not modelled. -/
def writeFacet (f : Facet) : Option (List ℝ) :=
  match f.normalVector with
  | none => none
  | some n => some ([n.x, n.y, n.z] ++
      [f.v1.x, f.v1.y, f.v1.z, f.v2.x, f.v2.y, f.v2.z,
        f.v3.x, f.v3.y, f.v3.z])

/-- write_stl (stl/write_stl.rs lines 14-38): writes the facet count
(returning the TooManyFacets error value when it exceeds 2^32 − 1) and then
every facet record; a panic inside any facet's normal computation aborts
the whole write (`none`).  The ignored 80-byte header, the little-endian
byte encoding and the f64→f32 truncation of the written values are not
modelled: each written scalar appears as the real number it denotes. -/
def write_stl (s : StlSolid) : Option (Except StlWriteError (List ℝ)) :=
  if s.facets.length > 2 ^ 32 - 1 then
    some (Except.error StlWriteError.tooManyFacets)
  else
    match optMap writeFacet s.facets with
    | none => none
    | some records =>
      some (Except.ok ((s.facets.length : ℝ) :: records.flatten))

/-- C10: a mesh containing a degenerate facet with three collinear vertices
(permitted by the mesh data model) makes write_stl fail fatally instead of
writing output or returning an error value: the facet's normal is the
normalized cross product of its edge vectors, that cross product is the
zero vector here, and to_unit_vector is fatal on it. -/
theorem C10_write_stl_degenerate_facet :
    (Vector.between (⟨0, 0, 0⟩ : Point) ⟨1, 0, 0⟩).cross
      (Vector.between (⟨1, 0, 0⟩ : Point) ⟨2, 0, 0⟩) = Vector.zero ∧
    (Facet.mk ⟨0, 0, 0⟩ ⟨1, 0, 0⟩ ⟨2, 0, 0⟩).normalVector = none ∧
    write_stl (StlSolid.mk [Facet.mk ⟨0, 0, 0⟩ ⟨1, 0, 0⟩ ⟨2, 0, 0⟩]) =
      none := by
  have hcross : (Vector.between (⟨0, 0, 0⟩ : Point) ⟨1, 0, 0⟩).cross
      (Vector.between (⟨1, 0, 0⟩ : Point) ⟨2, 0, 0⟩) = Vector.zero := by
    simp only [Vector.between, Vector.cross, Vector.zero, Vector.mk.injEq]
    norm_num
  have hnormzero : Vector.zero.norm = 0 := by
    simp only [Vector.norm, Vector.zero]
    rw [show ((0 : ℝ) * 0 + 0 * 0 + 0 * 0) = 0 by norm_num]
    exact Real.sqrt_zero
  have htu : Vector.zero.toUnitVector = none := by
    rw [Vector.toUnitVector, if_pos]
    rw [hnormzero]
    exact roughEq_self_zero
  have hn : (Facet.mk (⟨0, 0, 0⟩ : Point) ⟨1, 0, 0⟩ ⟨2, 0, 0⟩).normalVector =
      none := by
    simp only [Facet.normalVector]
    rw [hcross, htu]
  have hwf : writeFacet (Facet.mk ⟨0, 0, 0⟩ ⟨1, 0, 0⟩ ⟨2, 0, 0⟩) = none := by
    rw [writeFacet, hn]
  refine ⟨hcross, hn, ?_⟩
  rw [write_stl, if_neg]
  · simp only [optMap, hwf]
  · simp only [List.length_cons, List.length_nil]
    norm_num

theorem xUnit_norm : Vector.xUnit.norm = 1 :=
  Vector.norm_eq_one_of_dot_self_eq_one xUnit_dot_self

theorem yUnit_norm : Vector.yUnit.norm = 1 :=
  Vector.norm_eq_one_of_dot_self_eq_one yUnit_dot_self

/-- Sanity: the non-panicking branch of the plane-line intersection is
reachable: the XY plane meets the Z axis at the origin. -/
theorem planeLine_sample :
    ∃ q, Plane.intersectionLine ⟨Point.origin, Vector.zUnit⟩
      ⟨Point.origin, Vector.zUnit⟩ = some q ∧ q = Point.origin := by
  rw [Plane.intersectionLine, if_neg]
  · refine ⟨_, rfl, ?_⟩
    simp only [Point.origin, Vector.zUnit, Vector.dot, Point.mk.injEq]
    norm_num
  · simp only [Vector.dot, Vector.zUnit]
    rw [show ((0 : ℝ) * 0 + 0 * 0 + 1 * 1) = 1 by norm_num]
    exact not_roughEq_one_zero

/-- Sanity: the non-panicking branch of the plane-plane intersection is
reachable: the ZX plane meets the XY plane. -/
theorem planePlane_sample :
    ∃ L, Plane.intersectionPlane ⟨Point.origin, Vector.yUnit⟩
      ⟨Point.origin, Vector.zUnit⟩ = some L := by
  simp only [Plane.intersectionPlane, Vector.cross, Vector.yUnit,
    Vector.zUnit]
  rw [if_pos]
  · exact ⟨_, rfl⟩
  · intro h
    rw [sizeEq, roughEq, eps] at h
    norm_num at h

/-- Sanity: Location::new succeeds on the standard frame. -/
theorem location_new_sample :
    ∃ loc, Location.new Point.origin Vector.xUnit Vector.yUnit = some loc := by
  rw [Location.new, if_neg]
  · have h1 : Vector.xUnit.toUnitVector = some Vector.xUnit.unitOf := by
      rw [Vector.toUnitVector, if_neg]
      rw [xUnit_norm]
      exact not_roughEq_one_zero
    have h2 : Vector.yUnit.toUnitVector = some Vector.yUnit.unitOf := by
      rw [Vector.toUnitVector, if_neg]
      rw [yUnit_norm]
      exact not_roughEq_one_zero
    rw [h1, h2]
    exact ⟨_, rfl⟩
  · rw [not_not]
    have harg : Vector.xUnit.angleWith Vector.yUnit = Real.pi / 2 := by
      rw [Vector.angleWith, xUnit_norm, yUnit_norm]
      rw [show Vector.xUnit.dot Vector.yUnit = 0 by
        rw [Vector.dot, Vector.xUnit, Vector.yUnit]; norm_num]
      rw [show (0 : ℝ) / (1 * 1) = 0 by norm_num]
      exact Real.arccos_zero
    rw [angleEq, harg]
    exact roughEq_refl _

end TypedScad

